import Mathlib

/-!
Shallow embedding of the audio transcoding and flow-control pipeline of
server.js (a WebSocket bridge between a telephony media stream and a
realtime speech endpoint): the mu-law codec, the 8 kHz / 24 kHz resampler,
the voice-activity commit state machine and the outbound frame pacer,
together with theorems settling the frozen claims about them.
-/

set_option maxRecDepth 8192

namespace WsMediaStream

/-- One entry of the decode table built at startup (server.js lines 9-14):
sign from bit 7 of the byte, exponent from bits 6-4, mantissa from bits 3-0
OR 0x10, value = sign * ((mantissa shifted left by exponent+2) - (33
shifted left by 2)).  The stored values all fit in an Int16Array without
wraparound, so no reduction mod 2^16 is needed. -/
def muLawDecodeEntry (i : Nat) : Int :=
  let sign : Int := if i &&& 0x80 ≠ 0 then -1 else 1
  let exponent : Nat := (i >>> 4) &&& 0x07
  let mantissa : Nat := (i &&& 0x0F) ||| 0x10
  sign * (((mantissa <<< (exponent + 2) : Nat) : Int) - ((33 <<< 2 : Nat) : Int))

/-- The 256-entry mu-law decode table (server.js lines 8-15). -/
def MULAW_DECODE_TABLE : List Int := (List.range 256).map muLawDecodeEntry

/-- Table lookup as performed at server.js line 33: the index is the byte
masked with 0xFF. -/
def decodeMuLaw (b : Nat) : Int := MULAW_DECODE_TABLE.getD (b &&& 0xFF) 0

/-- resample8kTo24k (server.js lines 18-27): zero-order hold, every input
sample is written three times consecutively. -/
def resample8kTo24k : List Int → List Int
  | [] => []
  | v :: rest => v :: v :: v :: resample8kTo24k rest

/-- The decimation loop opening convertPcm24kToMulaw (server.js lines
40-43): the output has floor(n/3) samples and sample i of the output is
sample 3*i of the input. -/
def downsampleBy3 : List Int → List Int
  | a :: _ :: _ :: rest => a :: downsampleBy3 rest
  | _ => []

/-- convertMulawToPcm24k (server.js lines 30-36): decode every byte through
the table, then upsample to 24 kHz. -/
def convertMulawToPcm24k (mulawBuffer : List Nat) : List Int :=
  resample8kTo24k (mulawBuffer.map decodeMuLaw)

/-- The exponent while-loop of the encoder (server.js lines 54-57), written
with an explicit fuel argument bounding the number of iterations so the
function is structurally recursive; fuel equal to the starting value is
always enough because the value halves on every iteration. -/
def muLawExpGo : Nat → Nat → Nat → Nat
  | 0, exponent, _ => exponent
  | fuel + 1, exponent, exp =>
    if 1 < exp then muLawExpGo fuel (exponent + 1) (exp >>> 1) else exponent

/-- Per-sample mu-law encoding, the body of the second loop of
convertPcm24kToMulaw (server.js lines 46-60): extract the sign bit (the AND
of the sample shifted right by 8 with 0x80, modeled as reduction mod 256 of
the arithmetic shift followed by a Nat AND, which keeps exactly the same
bit of the twos complement value), negate negative samples, bias by 0x84,
derive the exponent by repeated right shift, take a 4-bit mantissa (AND
with 0x0F, modeled as reduction mod 16), pack sign, exponent and mantissa,
complement, and store into a Uint8Array (a reduction mod 256 of the twos
complement value). -/
def encodeMuLaw (sampleIn : Int) : Nat :=
  let sign : Nat := ((Int.shiftRight sampleIn 8) % 256).toNat &&& 0x80
  let sample1 : Int := if sign ≠ 0 then -sampleIn else sampleIn
  let biased : Int := sample1 + 0x84
  let exp : Int := Int.shiftRight biased 7
  let exponent : Nat := if 0 < exp then muLawExpGo exp.toNat 1 exp.toNat else 0
  let mantissa : Nat := ((Int.shiftRight biased (exponent + 3)) % 16).toNat
  let packed : Nat := sign ||| (exponent <<< 4) ||| mantissa
  ((~~~(packed : Int)) % 256).toNat

/-- convertPcm24kToMulaw (server.js lines 39-63): decimate by 3, then
encode every remaining sample to mu-law. -/
def convertPcm24kToMulaw (pcm24k : List Int) : List Nat :=
  (downsampleBy3 pcm24k).map encodeMuLaw

/-- Little-endian reinterpretation of a byte buffer as 16-bit signed
samples, as done by the Int16Array view at server.js line 245: the length
argument is the byte length divided by 2, which truncates, so a trailing
odd byte is ignored. -/
def bytesToInt16LE : List Nat → List Int
  | b0 :: b1 :: rest =>
    (let v := b0 + 256 * b1
     if v < 32768 then (v : Int) else (v : Int) - 65536) :: bytesToInt16LE rest
  | _ => []

/-- The per-session outbound pacer state (server.js lines 112-113): the
FIFO of raw byte chunks and the running total of queued bytes. -/
structure OutboundState where
  queue : List (List Nat)
  queuedBytes : Int
deriving DecidableEq, Repr

/-- enqueueOutboundMulaw (server.js lines 115-119): empty chunks are
ignored, otherwise the chunk is pushed and the byte counter increased. -/
def enqueueOutboundMulaw (buf : List Nat) (st : OutboundState) : OutboundState :=
  if buf.length = 0 then st
  else ⟨st.queue ++ [buf], st.queuedBytes + (buf.length : Int)⟩

/-- Handling of one speech-endpoint audio delta (server.js lines 244-250):
reinterpret the decoded binary payload as little-endian 16-bit samples,
transcode to mu-law and enqueue the result on the outbound pacer. -/
def handleAudioDelta (payload : List Nat) (st : OutboundState) : OutboundState :=
  enqueueOutboundMulaw (convertPcm24kToMulaw (bytesToInt16LE payload)) st

/-- The frame size used by the pacer (server.js line 131): 20 ms of 8 kHz
mu-law. -/
def frameSize : Nat := 160

/-- Everything observable about one call of sendOutboundFrames: the final
pacer state, the frames delivered to the telephony socket in order, and
the frame whose send threw, if any. -/
structure DrainResult where
  state : OutboundState
  delivered : List (List Nat)
  failed : Option (List Nat)
deriving DecidableEq, Repr

/-- The while loop of sendOutboundFrames (server.js lines 124-156), with an
explicit fuel argument bounding the number of iterations so the function is
structurally recursive; every iteration either removes a queue entry or
performs a send (incrementing framesSent) or returns, so any fuel of at
least maxFrames + queue length + 1 gives the behavior of the unbounded
loop.  The sendOk oracle says whether the k-th send of this call succeeds;
on a failed send the loop breaks, after the frame has already been removed
from the queue and subtracted from the byte counter. -/
def sendLoop (sendOk : Nat → Bool) (maxFrames : Nat) :
    Nat → Nat → List (List Nat) → Int → DrainResult
  | 0, _, queue, queuedBytes => ⟨⟨queue, queuedBytes⟩, [], none⟩
  | _ + 1, _, [], queuedBytes => ⟨⟨[], queuedBytes⟩, [], none⟩
  | fuel + 1, framesSent, head :: rest, queuedBytes =>
    if framesSent < maxFrames then
      if head.length = 0 then
        sendLoop sendOk maxFrames fuel framesSent rest queuedBytes
      else if head.length ≤ frameSize then
        let bytes1 : Int := queuedBytes - (head.length : Int)
        if sendOk framesSent then
          let r := sendLoop sendOk maxFrames fuel (framesSent + 1) rest bytes1
          ⟨r.state, head :: r.delivered, r.failed⟩
        else ⟨⟨rest, bytes1⟩, [], some head⟩
      else
        let frame := head.take frameSize
        let tail := head.drop frameSize
        let bytes1 : Int := queuedBytes - (frame.length : Int)
        if sendOk framesSent then
          let r := sendLoop sendOk maxFrames fuel (framesSent + 1) (tail :: rest) bytes1
          ⟨r.state, frame :: r.delivered, r.failed⟩
        else ⟨⟨tail :: rest, bytes1⟩, [], some frame⟩
    else ⟨⟨head :: rest, queuedBytes⟩, [], none⟩

/-- JavaScript truthiness of the twilioStreamSid variable: null (no start
frame yet) and the empty string are falsy. -/
def sidFalsy : Option String → Bool
  | none => true
  | some s => s == ""

/-- sendOutboundFrames (server.js lines 121-166): a no-op while the stream
identifier is falsy, otherwise the paced drain loop. -/
def sendOutboundFrames (twilioStreamSid : Option String) (sendOk : Nat → Bool)
    (maxFrames : Nat) (st : OutboundState) : DrainResult :=
  if sidFalsy twilioStreamSid then ⟨st, [], none⟩
  else sendLoop sendOk maxFrames (maxFrames + st.queue.length + 1) 0 st.queue st.queuedBytes

/-- One telephony tick: the media handler ends with sendOutboundFrames(1)
(server.js line 451), and in the scenario of interest every send succeeds. -/
def drainTick (sid : Option String) (st : OutboundState) :
    OutboundState × List (List Nat) :=
  let r := sendOutboundFrames sid (fun _ => true) 1 st
  (r.state, r.delivered)

/-- Iterated ticks, collecting the delivered frames in order. -/
def drainTicks (sid : Option String) : Nat → OutboundState → OutboundState × List (List Nat)
  | 0, st => (st, [])
  | k + 1, st =>
    let r1 := drainTick sid st
    let r2 := drainTicks sid k r1.1
    (r2.1, r1.2 ++ r2.2)

/-- Total number of bytes held in a chunk queue. -/
def sumBytes (q : List (List Nat)) : Int :=
  (q.map (fun c => (c.length : Int))).sum

/-- The voice-activity bookkeeping of a call session (server.js lines
106-110): whether the endpoint currently detects speech, whether a commit
is pending, and the bytes appended since the last reset. -/
structure VadState where
  speechActive : Bool
  pendingCommit : Bool
  appendedBytes : Nat
deriving DecidableEq, Repr

/-- The events that drive the voice-activity state: the three endpoint
signals (server.js lines 283-310) and one inbound transcoded media unit
carrying its PCM byte length (server.js lines 409-434). -/
inductive VadEvent where
  | speechStarted
  | speechStopped
  | committed
  | media (bytes : Nat)
deriving DecidableEq, Repr

/-- One step of the voice-activity machine; the Bool records whether this
event emitted a commit instruction to the speech endpoint.  A media unit
is counted only while speechActive or pendingCommit holds, and the commit
fires when a commit is pending and the accumulated count has reached 7200
bytes, after which the counter and the pending flag are reset. -/
def vadStep (st : VadState) : VadEvent → VadState × Bool
  | VadEvent.speechStarted => (⟨true, false, 0⟩, false)
  | VadEvent.speechStopped => (⟨false, true, st.appendedBytes⟩, false)
  | VadEvent.committed => (⟨st.speechActive, false, 0⟩, false)
  | VadEvent.media n =>
    let ab := if st.speechActive || st.pendingCommit then st.appendedBytes + n
              else st.appendedBytes
    if st.pendingCommit && decide (7200 ≤ ab) then
      (⟨st.speechActive, false, 0⟩, true)
    else
      (⟨st.speechActive, st.pendingCommit, ab⟩, false)

/-- Run the voice-activity machine over a list of events, returning the
final state and the per-event commit flags. -/
def vadRun (st : VadState) : List VadEvent → VadState × List Bool
  | [] => (st, [])
  | e :: rest =>
    let r1 := vadStep st e
    let r2 := vadRun r1.1 rest
    (r2.1, r1.2 :: r2.2)

/-- Chop a byte buffer into 160-byte frames, the last possibly short:
the frame sequence that a single queued chunk is sliced into by the pacer. -/
def chop160 (c : List Nat) : List (List Nat) :=
  if _h1 : c = [] then []
  else if _h2 : c.length ≤ 160 then [c]
  else c.take 160 :: chop160 (c.drop 160)
termination_by c.length
decreasing_by simp; omega

-- Helper lemmas about the outbound pacer.

lemma sumBytes_nil : sumBytes [] = 0 := rfl

lemma sumBytes_cons (c : List Nat) (q : List (List Nat)) :
    sumBytes (c :: q) = (c.length : Int) + sumBytes q := by
  simp [sumBytes]

lemma sendLoop_flatten (sendOk : Nat → Bool) (maxFrames : Nat) :
    ∀ (fuel framesSent : Nat) (queue : List (List Nat)) (bytes : Int),
      queue.flatten =
        (sendLoop sendOk maxFrames fuel framesSent queue bytes).delivered.flatten ++
        ((sendLoop sendOk maxFrames fuel framesSent queue bytes).failed.getD []) ++
        (sendLoop sendOk maxFrames fuel framesSent queue bytes).state.queue.flatten := by
  intro fuel
  induction fuel with
  | zero => intro framesSent queue bytes; simp [sendLoop]
  | succ fuel ih =>
    intro framesSent queue bytes
    match queue with
    | [] => simp [sendLoop]
    | head :: rest =>
      by_cases h1 : framesSent < maxFrames
      · by_cases h2 : head.length = 0
        · have hhead : head = [] := List.length_eq_zero.mp h2
          subst hhead
          simpa [sendLoop, h1, h2] using ih framesSent rest bytes
        · by_cases h3 : head.length ≤ frameSize
          · by_cases h4 : sendOk framesSent
            · have hr := ih (framesSent + 1) rest (bytes - (head.length : Int))
              simp only [sendLoop, if_pos h1, if_neg h2, if_pos h3, h4, if_true]
              simp only [List.flatten_cons]
              rw [hr]
              simp [List.append_assoc]
            · simp only [sendLoop, if_pos h1, if_neg h2, if_pos h3, h4, if_false]
              simp
          · by_cases h4 : sendOk framesSent
            · have hr := ih (framesSent + 1) (head.drop frameSize :: rest)
                (bytes - ((head.take frameSize).length : Int))
              simp only [sendLoop, if_pos h1, if_neg h2, if_neg h3, h4, if_true]
              simp only [List.flatten_cons] at hr ⊢
              conv_lhs => rw [← List.take_append_drop frameSize head, List.append_assoc, hr]
              simp [List.append_assoc]
            · simp only [sendLoop, if_pos h1, if_neg h2, if_neg h3]
              rw [if_neg h4]
              simp only [List.flatten_cons, List.flatten_nil, Option.getD_some, List.nil_append]
              rw [← List.append_assoc, List.take_append_drop]
      · simp [sendLoop, h1]

lemma sendLoop_bytes (sendOk : Nat → Bool) (maxFrames : Nat) :
    ∀ (fuel framesSent : Nat) (queue : List (List Nat)) (bytes : Int),
      bytes = sumBytes queue →
      (sendLoop sendOk maxFrames fuel framesSent queue bytes).state.queuedBytes =
        sumBytes (sendLoop sendOk maxFrames fuel framesSent queue bytes).state.queue := by
  intro fuel
  induction fuel with
  | zero => intro framesSent queue bytes h; simpa [sendLoop] using h
  | succ fuel ih =>
    intro framesSent queue bytes h
    match queue with
    | [] => simpa [sendLoop] using h
    | head :: rest =>
      rw [sumBytes_cons] at h
      by_cases h1 : framesSent < maxFrames
      · by_cases h2 : head.length = 0
        · have hb : bytes = sumBytes rest := by rw [h, h2]; simp
          simpa [sendLoop, h1, h2] using ih framesSent rest bytes hb
        · by_cases h3 : head.length ≤ frameSize
          · by_cases h4 : sendOk framesSent
            · have hb : bytes - (head.length : Int) = sumBytes rest := by omega
              simpa [sendLoop, h1, h2, h3, h4] using
                ih (framesSent + 1) rest (bytes - (head.length : Int)) hb
            · have hb : bytes - (head.length : Int) = sumBytes rest := by omega
              simp [sendLoop, h1, h2, h3, h4, hb]
          · have htake : ((head.take frameSize).length : Int) = (frameSize : Int) := by
              simp [List.length_take]
              omega
            have hdrop : ((head.drop frameSize).length : Int) =
                (head.length : Int) - (frameSize : Int) := by
              simp [List.length_drop]
              omega
            by_cases h4 : sendOk framesSent
            · have hb : bytes - ((head.take frameSize).length : Int) =
                  sumBytes (head.drop frameSize :: rest) := by
                rw [sumBytes_cons, htake, hdrop]
                omega
              simpa [sendLoop, h1, h2, h3, h4] using
                ih (framesSent + 1) (head.drop frameSize :: rest)
                  (bytes - ((head.take frameSize).length : Int)) hb
            · have hb : bytes - ((head.take frameSize).length : Int) =
                  sumBytes (head.drop frameSize :: rest) := by
                rw [sumBytes_cons, htake, hdrop]
                omega
              simp only [sendLoop, if_pos h1, if_neg h2, if_neg h3, h4, if_false]
              simpa using hb
      · simpa [sendLoop, h1] using h

lemma sendLoop_failed_attempt (sendOk : Nat → Bool) (maxFrames : Nat) :
    ∀ (fuel framesSent : Nat) (queue : List (List Nat)) (bytes : Int),
      (sendLoop sendOk maxFrames fuel framesSent queue bytes).failed.isSome →
      sendOk (framesSent +
        (sendLoop sendOk maxFrames fuel framesSent queue bytes).delivered.length) = false := by
  intro fuel
  induction fuel with
  | zero => intro framesSent queue bytes h; simp [sendLoop] at h
  | succ fuel ih =>
    intro framesSent queue bytes h
    match queue with
    | [] => simp [sendLoop] at h
    | head :: rest =>
      by_cases h1 : framesSent < maxFrames
      · by_cases h2 : head.length = 0
        · simp only [sendLoop, if_pos h1, h2, if_pos rfl] at h ⊢
          exact ih framesSent rest bytes h
        · by_cases h3 : head.length ≤ frameSize
          · by_cases h4 : sendOk framesSent
            · simp only [sendLoop, if_pos h1, if_neg h2, if_pos h3, h4, if_true] at h ⊢
              have := ih (framesSent + 1) rest (bytes - (head.length : Int)) h
              simp only [List.length_cons]
              rw [show framesSent + ((sendLoop sendOk maxFrames fuel (framesSent + 1) rest
                (bytes - (head.length : Int))).delivered.length + 1) =
                framesSent + 1 + (sendLoop sendOk maxFrames fuel (framesSent + 1) rest
                (bytes - (head.length : Int))).delivered.length from by omega]
              exact this
            · simp only [sendLoop, if_pos h1, if_neg h2, if_pos h3, h4, if_false] at h ⊢
              simpa using h4
          · by_cases h4 : sendOk framesSent
            · simp only [sendLoop, if_pos h1, if_neg h2, if_neg h3, h4, if_true] at h ⊢
              have := ih (framesSent + 1) (head.drop frameSize :: rest)
                (bytes - ((head.take frameSize).length : Int)) h
              simp only [List.length_cons]
              rw [show framesSent + ((sendLoop sendOk maxFrames fuel (framesSent + 1)
                (head.drop frameSize :: rest)
                (bytes - ((head.take frameSize).length : Int))).delivered.length + 1) =
                framesSent + 1 + (sendLoop sendOk maxFrames fuel (framesSent + 1)
                (head.drop frameSize :: rest)
                (bytes - ((head.take frameSize).length : Int))).delivered.length from by omega]
              exact this
            · simp only [sendLoop, if_pos h1, if_neg h2, if_neg h3, h4, if_false] at h ⊢
              simpa using h4
      · simp [sendLoop, h1] at h


-- Basic helper lemmas about the resampler.

theorem downsampleBy3_resample8kTo24k (s : List Int) :
    downsampleBy3 (resample8kTo24k s) = s := by
  induction s with
  | nil => rfl
  | cons a rest ih => simp [resample8kTo24k, downsampleBy3, ih]

theorem resample8kTo24k_length (s : List Int) :
    (resample8kTo24k s).length = 3 * s.length := by
  induction s with
  | nil => rfl
  | cons a rest ih => simp [resample8kTo24k, ih]; ring

theorem resample8kTo24k_replicate (n : Nat) (v : Int) :
    resample8kTo24k (List.replicate n v) = List.replicate (3 * n) v := by
  induction n with
  | zero => rfl
  | succ k ih =>
    show resample8kTo24k (v :: List.replicate k v) = _
    rw [resample8kTo24k, ih]
    have h3 : 3 * (k + 1) = (3 * k) + 1 + 1 + 1 := by ring
    rw [h3]
    rfl




lemma drainTick_single (sid : Option String) (hsid : sidFalsy sid = false)
    (c : List Nat) (hc : c ≠ []) (b : Int) :
    drainTick sid ⟨[c], b⟩ =
      if c.length ≤ 160 then (⟨[], b - (c.length : Int)⟩, [c])
      else (⟨[c.drop 160], b - 160⟩, [c.take 160]) := by
  have hlen : ¬ c.length = 0 := by simpa using hc
  by_cases h : c.length ≤ 160
  · simp [drainTick, sendOutboundFrames, hsid, sendLoop, frameSize, hlen, h]
  · have htake : ((c.take 160).length : Int) = 160 := by
      simp [List.length_take]
      omega
    simp [drainTick, sendOutboundFrames, hsid, sendLoop, frameSize, hlen, h, htake]
    omega

lemma drainTicks_chop (sid : Option String) (hsid : sidFalsy sid = false) :
    ∀ (fuel : Nat) (c : List Nat), c.length ≤ fuel → c ≠ [] → ∀ b : Int,
      drainTicks sid (chop160 c).length ⟨[c], b⟩ =
        (⟨[], b - (c.length : Int)⟩, chop160 c) := by
  intro fuel
  induction fuel with
  | zero =>
    intro c hlen hne b
    exact absurd (List.length_eq_zero.mp (Nat.le_zero.mp hlen)) hne
  | succ fuel ih =>
    intro c hlen hne b
    rw [chop160]
    simp only [hne, dite_false]
    by_cases h2 : c.length ≤ 160
    · simp only [h2, dite_true]
      simp [drainTicks, drainTick_single sid hsid c hne b, h2]
    · simp only [h2, dite_false]
      have hdropne : c.drop 160 ≠ [] := by
        intro he
        have := List.length_drop 160 c
        rw [he] at this
        simp at this
        omega
      have hdroplen : (c.drop 160).length ≤ fuel := by
        simp [List.length_drop]
        omega
      show drainTicks sid ((chop160 (c.drop 160)).length + 1) ⟨[c], b⟩ = _
      rw [drainTicks]
      simp only [drainTick_single sid hsid c hne b, h2, if_false]
      rw [ih (c.drop 160) hdroplen hdropne (b - 160)]
      simp only [List.singleton_append, Prod.mk.injEq, OutboundState.mk.injEq]
      refine ⟨⟨trivial, ?_⟩, trivial⟩
      have hd : ((List.drop 160 c).length : Int) = (c.length : Int) - 160 := by
        simp [List.length_drop]
        omega
      rw [hd]
      ring

lemma chop160_ne_nil (c : List Nat) (hc : c ≠ []) : chop160 c ≠ [] := by
  rw [chop160]
  simp only [hc, dite_false]
  by_cases h2 : c.length ≤ 160 <;> simp [h2]

lemma chop160_length : ∀ (fuel : Nat) (c : List Nat), c.length ≤ fuel → c ≠ [] →
    (chop160 c).length = (c.length + 159) / 160 := by
  intro fuel
  induction fuel with
  | zero =>
    intro c hlen hne
    exact absurd (List.length_eq_zero.mp (Nat.le_zero.mp hlen)) hne
  | succ fuel ih =>
    intro c hlen hne
    have hpos : 0 < c.length := List.length_pos.mpr hne
    rw [chop160]
    simp only [hne, dite_false]
    by_cases h2 : c.length ≤ 160
    · simp only [h2, dite_true, List.length_singleton]
      omega
    · simp only [h2, dite_false, List.length_cons]
      have hdropne : c.drop 160 ≠ [] := by
        intro he
        have hdl := List.length_drop 160 c
        rw [he] at hdl
        simp at hdl
        omega
      have hdroplen : (c.drop 160).length ≤ fuel := by
        simp [List.length_drop]
        omega
      rw [ih (c.drop 160) hdroplen hdropne]
      simp [List.length_drop]
      omega

lemma chop160_flatten : ∀ (fuel : Nat) (c : List Nat), c.length ≤ fuel →
    (chop160 c).flatten = c := by
  intro fuel
  induction fuel with
  | zero =>
    intro c hlen
    have : c = [] := List.length_eq_zero.mp (Nat.le_zero.mp hlen)
    subst this
    simp [chop160]
  | succ fuel ih =>
    intro c hlen
    rw [chop160]
    by_cases hne : c = []
    · simp [hne]
    · simp only [hne, dite_false]
      by_cases h2 : c.length ≤ 160
      · simp [h2]
      · simp only [h2, dite_false, List.flatten_cons]
        have hdroplen : (c.drop 160).length ≤ fuel := by
          simp [List.length_drop]
          omega
        rw [ih (c.drop 160) hdroplen, List.take_append_drop]

lemma chop160_dropLast_length : ∀ (fuel : Nat) (c : List Nat), c.length ≤ fuel →
    ∀ f ∈ (chop160 c).dropLast, f.length = 160 := by
  intro fuel
  induction fuel with
  | zero =>
    intro c hlen
    have : c = [] := List.length_eq_zero.mp (Nat.le_zero.mp hlen)
    subst this
    intro f hf
    simp [chop160] at hf
  | succ fuel ih =>
    intro c hlen f hf
    rw [chop160] at hf
    by_cases hne : c = []
    · simp [hne] at hf
    · simp only [hne, dite_false] at hf
      by_cases h2 : c.length ≤ 160
      · simp [h2] at hf
      · simp only [h2, dite_false] at hf
        have hdropne : c.drop 160 ≠ [] := by
          intro he
          have hdl := List.length_drop 160 c
          rw [he] at hdl
          simp at hdl
          omega
        rw [List.dropLast_cons_of_ne_nil (chop160_ne_nil _ hdropne)] at hf
        rcases List.mem_cons.mp hf with h | h
        · subst h
          simp [List.length_take]
          omega
        · have hdroplen : (c.drop 160).length ≤ fuel := by
            simp [List.length_drop]
            omega
          exact ih (c.drop 160) hdroplen f h

lemma chop160_getLast : ∀ (fuel : Nat) (c : List Nat), c.length ≤ fuel → c ≠ [] →
    (chop160 c).getLast?.map List.length =
      some (if c.length % 160 = 0 then 160 else c.length % 160) := by
  intro fuel
  induction fuel with
  | zero =>
    intro c hlen hne
    exact absurd (List.length_eq_zero.mp (Nat.le_zero.mp hlen)) hne
  | succ fuel ih =>
    intro c hlen hne
    have hpos : 0 < c.length := List.length_pos.mpr hne
    rw [chop160]
    simp only [hne, dite_false]
    by_cases h2 : c.length ≤ 160
    · simp only [h2, dite_true]
      have hgl : ([c] : List (List Nat)).getLast?.map List.length = some c.length := rfl
      rw [hgl]
      congr 1
      split <;> omega
    · simp only [h2, dite_false]
      have hdropne : c.drop 160 ≠ [] := by
        intro he
        have hdl := List.length_drop 160 c
        rw [he] at hdl
        simp at hdl
        omega
      have hdroplen : (c.drop 160).length ≤ fuel := by
        simp [List.length_drop]
        omega
      cases hl : chop160 (c.drop 160) with
      | nil => exact absurd hl (chop160_ne_nil _ hdropne)
      | cons x xs =>
        rw [List.getLast?_cons_cons, ← hl, ih (c.drop 160) hdroplen hdropne]
        congr 1
        have hmod : (c.drop 160).length % 160 = c.length % 160 := by
          simp [List.length_drop]
          omega
        rw [hmod]

lemma drainTicks_midway (sid : Option String) (hsid : sidFalsy sid = false) :
    ∀ (k : Nat) (c : List Nat), 160 * k < c.length → ∀ b : Int,
      (drainTicks sid k ⟨[c], b⟩).1 = ⟨[c.drop (160 * k)], b - ((160 * k : Nat) : Int)⟩ := by
  intro k
  induction k with
  | zero =>
    intro c hk b
    simp [drainTicks]
  | succ k ih =>
    intro c hk b
    have hne : c ≠ [] := by
      intro he
      rw [he] at hk
      simp at hk
    have h160 : ¬ c.length ≤ 160 := by omega
    rw [drainTicks]
    simp only [drainTick_single sid hsid c hne b, h160, if_false]
    have hk2 : 160 * k < (c.drop 160).length := by
      simp [List.length_drop]
      omega
    rw [ih (c.drop 160) hk2 (b - 160), List.drop_drop]
    have h1 : 160 + 160 * k = 160 * (k + 1) := by ring
    rw [h1]
    simp only [OutboundState.mk.injEq]
    refine ⟨trivial, ?_⟩
    push_cast
    ring

/-- C2, amended: for an outbound queue holding a single chunk of N > 0
bytes and no further enqueues, drain(1, 160) once per tick empties the
queue in exactly ceil(N/160) ticks, delivering the chunk re-sliced in
order, every frame except the last having exactly 160 bytes and the final
frame having N mod 160 bytes (160 when N is divisible by 160); the byte
counter ends at 0 and the queue is still nonempty at every earlier tick. -/
theorem drain_single_chunk_ceil (sid : Option String) (c : List Nat)
    (hsid : sidFalsy sid = false) (hc : c ≠ []) :
    (drainTicks sid ((c.length + 159) / 160) ⟨[c], (c.length : Int)⟩).1.queue = [] ∧
    (drainTicks sid ((c.length + 159) / 160) ⟨[c], (c.length : Int)⟩).1.queuedBytes = 0 ∧
    (drainTicks sid ((c.length + 159) / 160) ⟨[c], (c.length : Int)⟩).2.flatten = c ∧
    (drainTicks sid ((c.length + 159) / 160) ⟨[c], (c.length : Int)⟩).2.length =
      (c.length + 159) / 160 ∧
    (∀ f ∈ (drainTicks sid ((c.length + 159) / 160) ⟨[c], (c.length : Int)⟩).2.dropLast,
      f.length = 160) ∧
    (drainTicks sid ((c.length + 159) / 160)
        ⟨[c], (c.length : Int)⟩).2.getLast?.map List.length =
      some (if c.length % 160 = 0 then 160 else c.length % 160) ∧
    ∀ k < (c.length + 159) / 160,
      (drainTicks sid k ⟨[c], (c.length : Int)⟩).1.queue ≠ [] := by
  have hT : (chop160 c).length = (c.length + 159) / 160 :=
    chop160_length c.length c le_rfl hc
  have hrun := drainTicks_chop sid hsid c.length c le_rfl hc (c.length : Int)
  rw [hT] at hrun
  rw [hrun]
  refine ⟨rfl, by simp, chop160_flatten c.length c le_rfl, hT,
    chop160_dropLast_length c.length c le_rfl, chop160_getLast c.length c le_rfl hc,
    fun k hk => ?_⟩
  have hklt : 160 * k < c.length := by omega
  rw [drainTicks_midway sid hsid k c hklt (c.length : Int)]
  simp

/-- Witness for C2 at a set stream identifier and one 200-byte chunk. -/
theorem drain_single_chunk_ceil_witness :
    sidFalsy (some "MZa") = false ∧ List.replicate 200 7 ≠ ([] : List Nat) ∧
    ((drainTicks (some "MZa") (((List.replicate 200 7 : List Nat).length + 159) / 160)
        ⟨[List.replicate 200 7], ((List.replicate 200 7 : List Nat).length : Int)⟩).1.queue = [] ∧
     (drainTicks (some "MZa") (((List.replicate 200 7 : List Nat).length + 159) / 160)
        ⟨[List.replicate 200 7], ((List.replicate 200 7 : List Nat).length : Int)⟩).1.queuedBytes = 0 ∧
     (drainTicks (some "MZa") (((List.replicate 200 7 : List Nat).length + 159) / 160)
        ⟨[List.replicate 200 7], ((List.replicate 200 7 : List Nat).length : Int)⟩).2.flatten =
        List.replicate 200 7 ∧
     (drainTicks (some "MZa") (((List.replicate 200 7 : List Nat).length + 159) / 160)
        ⟨[List.replicate 200 7], ((List.replicate 200 7 : List Nat).length : Int)⟩).2.length =
        ((List.replicate 200 7 : List Nat).length + 159) / 160 ∧
     (∀ f ∈ (drainTicks (some "MZa") (((List.replicate 200 7 : List Nat).length + 159) / 160)
        ⟨[List.replicate 200 7], ((List.replicate 200 7 : List Nat).length : Int)⟩).2.dropLast,
        f.length = 160) ∧
     (drainTicks (some "MZa") (((List.replicate 200 7 : List Nat).length + 159) / 160)
        ⟨[List.replicate 200 7],
          ((List.replicate 200 7 : List Nat).length : Int)⟩).2.getLast?.map List.length =
        some (if (List.replicate 200 7 : List Nat).length % 160 = 0 then 160
          else (List.replicate 200 7 : List Nat).length % 160) ∧
     ∀ k < ((List.replicate 200 7 : List Nat).length + 159) / 160,
       (drainTicks (some "MZa") k
         ⟨[List.replicate 200 7], ((List.replicate 200 7 : List Nat).length : Int)⟩).1.queue ≠ []) :=
  ⟨by decide, by decide,
    drain_single_chunk_ceil (some "MZa") (List.replicate 200 7) (by decide) (by decide)⟩

/-- C2, counterexample: with the queue partitioned into two 100-byte
chunks (N = 200), the two delivered frames have 100 bytes each, although
the claim requires every frame except possibly the last to have exactly
160 bytes and the final frame to have N mod 160 = 40 bytes; the pacer
never re-slices frames across chunk boundaries. -/
theorem drain_multi_chunk_short_frame :
    (drainTicks (some "MZ0") 2 ⟨[List.replicate 100 0, List.replicate 100 0], 200⟩).2.map
        List.length = [100, 100] ∧
    (100 ≠ 160) ∧ ((200 + 159) / 160 = 2) ∧ (200 % 160 = 40) ∧ (100 ≠ 40) := by
  decide

/-- C7, amended: a send failure aborts the drain at once, the failed
attempt being the very next send after the delivered frames; the queued
bytes are conserved except for the frame whose send failed, which has
already been removed from the queue and is lost, while all bytes behind
it remain queued in order for the next tick. -/
theorem drain_conservation (sid : Option String) (sendOk : Nat → Bool)
    (maxFrames : Nat) (st : OutboundState) :
    st.queue.flatten =
      (sendOutboundFrames sid sendOk maxFrames st).delivered.flatten ++
      ((sendOutboundFrames sid sendOk maxFrames st).failed.getD []) ++
      (sendOutboundFrames sid sendOk maxFrames st).state.queue.flatten ∧
    ((sendOutboundFrames sid sendOk maxFrames st).failed.isSome →
      sendOk (sendOutboundFrames sid sendOk maxFrames st).delivered.length = false) := by
  unfold sendOutboundFrames
  by_cases h : sidFalsy sid = true
  · simp [h]
  · simp only [h, if_false]
    refine ⟨sendLoop_flatten sendOk maxFrames _ 0 st.queue st.queuedBytes, fun hf => ?_⟩
    simpa using sendLoop_failed_attempt sendOk maxFrames _ 0 st.queue st.queuedBytes hf

/-- Witness for C7 at a concrete queue and failing send oracle. -/
theorem drain_conservation_witness :
    (⟨[[1, 2]], 2⟩ : OutboundState).queue.flatten =
      (sendOutboundFrames (some "MZb") (fun _ => false) 1 ⟨[[1, 2]], 2⟩).delivered.flatten ++
      ((sendOutboundFrames (some "MZb") (fun _ => false) 1 ⟨[[1, 2]], 2⟩).failed.getD []) ++
      (sendOutboundFrames (some "MZb") (fun _ => false) 1 ⟨[[1, 2]], 2⟩).state.queue.flatten ∧
    ((sendOutboundFrames (some "MZb") (fun _ => false) 1 ⟨[[1, 2]], 2⟩).failed.isSome →
      (fun _ => false :
        Nat → Bool) (sendOutboundFrames (some "MZb") (fun _ => false) 1
          ⟨[[1, 2]], 2⟩).delivered.length = false) :=
  drain_conservation (some "MZb") (fun _ => false) 1 ⟨[[1, 2]], 2⟩

/-- C7, counterexample: draining a queue holding one 160-byte chunk with a
failing send ends with an empty queue and zero queued bytes while nothing
was delivered: the frame is removed from the queue before the send is
attempted, so its bytes are not preserved for the next tick. -/
theorem failed_send_frame_lost :
    sendOutboundFrames (some "MZ0") (fun _ => false) 1 ⟨[List.replicate 160 7], 160⟩ =
      ⟨⟨[], 0⟩, [], some (List.replicate 160 7)⟩ ∧
    (⟨[], 0⟩ : OutboundState).queue = [] := by
  decide

/-- C8: after an enqueue and after any drain call (with any send outcomes,
including the error-abort path) the running total-queued-bytes counter
equals the sum of the remaining chunk lengths in the queue, provided it
did before the operation. -/
theorem outbound_bytes_invariant (buf : List Nat) (sid : Option String)
    (sendOk : Nat → Bool) (maxFrames : Nat) (st : OutboundState)
    (h : st.queuedBytes = sumBytes st.queue) :
    (enqueueOutboundMulaw buf st).queuedBytes =
      sumBytes (enqueueOutboundMulaw buf st).queue ∧
    (sendOutboundFrames sid sendOk maxFrames st).state.queuedBytes =
      sumBytes (sendOutboundFrames sid sendOk maxFrames st).state.queue := by
  constructor
  · by_cases hb : buf.length = 0
    · simpa [enqueueOutboundMulaw, hb] using h
    · simp [enqueueOutboundMulaw, hb, sumBytes, h]
  · unfold sendOutboundFrames
    by_cases hs : sidFalsy sid = true
    · simpa [hs] using h
    · simp only [hs, if_false]
      exact sendLoop_bytes sendOk maxFrames _ 0 st.queue st.queuedBytes h

/-- Witness for C8 at a concrete queue, enqueue and successful drain. -/
theorem outbound_bytes_invariant_witness :
    (⟨[[1, 2, 3]], 3⟩ : OutboundState).queuedBytes =
      sumBytes (⟨[[1, 2, 3]], 3⟩ : OutboundState).queue ∧
    ((enqueueOutboundMulaw [4, 5] ⟨[[1, 2, 3]], 3⟩).queuedBytes =
      sumBytes (enqueueOutboundMulaw [4, 5] ⟨[[1, 2, 3]], 3⟩).queue ∧
    (sendOutboundFrames (some "MZ0") (fun _ => true) 1 ⟨[[1, 2, 3]], 3⟩).state.queuedBytes =
      sumBytes (sendOutboundFrames (some "MZ0") (fun _ => true) 1
        ⟨[[1, 2, 3]], 3⟩).state.queue) :=
  ⟨by decide,
    outbound_bytes_invariant [4, 5] (some "MZ0") (fun _ => true) 1 ⟨[[1, 2, 3]], 3⟩ (by decide)⟩

lemma enqueue_queuedBytes (b : List Nat) (s : OutboundState) :
    (enqueueOutboundMulaw b s).queuedBytes = s.queuedBytes + (b.length : Int) := by
  by_cases h : b.length = 0 <;> simp [enqueueOutboundMulaw, h]

lemma foldl_enqueue_bytes (bufs : List (List Nat)) (st : OutboundState) :
    (bufs.foldl (fun s b => enqueueOutboundMulaw b s) st).queuedBytes =
      st.queuedBytes + sumBytes bufs := by
  induction bufs generalizing st with
  | nil => simp [sumBytes]
  | cons b rest ih =>
    rw [List.foldl_cons, ih, enqueue_queuedBytes, sumBytes_cons]
    ring

/-- C10: while the stream identifier is unset every drain call is a no-op
returning the state unchanged with nothing delivered and no failure, and
audio enqueued before the start frame is retained: the byte counter grows
by exactly the number of enqueued bytes. -/
theorem drain_noop_before_start (sendOk : Nat → Bool) (maxFrames : Nat)
    (st : OutboundState) (bufs : List (List Nat)) :
    sendOutboundFrames none sendOk maxFrames
        (bufs.foldl (fun s b => enqueueOutboundMulaw b s) st) =
      ⟨bufs.foldl (fun s b => enqueueOutboundMulaw b s) st, [], none⟩ ∧
    (bufs.foldl (fun s b => enqueueOutboundMulaw b s) st).queuedBytes =
      st.queuedBytes + sumBytes bufs := by
  exact ⟨by simp [sendOutboundFrames, sidFalsy], foldl_enqueue_bytes bufs st⟩

lemma vadRun_append (st : VadState) (l1 l2 : List VadEvent) :
    vadRun st (l1 ++ l2) =
      ((vadRun (vadRun st l1).1 l2).1,
       (vadRun st l1).2 ++ (vadRun (vadRun st l1).1 l2).2) := by
  induction l1 generalizing st with
  | nil => simp [vadRun]
  | cons e rest ih => simp [vadRun, ih]

lemma vadRun_idle_media (b : Nat) (ns : List Nat) :
    vadRun ⟨false, false, b⟩ (ns.map VadEvent.media) =
      (⟨false, false, b⟩, List.replicate ns.length false) := by
  induction ns with
  | nil => rfl
  | cons n rest ih => simp [vadRun, vadStep, ih, List.replicate]

/-- C5: from the initial state, the sequence speech started, ten 1000-byte
media units, speech stopped, then any further media units emits exactly
one commit, fired on the first media unit after speech stopped (the
counter already holds 10000 >= 7200 bytes), and immediately after that
commit the appended byte counter is 0 and the pending flag is cleared;
every later media unit emits nothing. -/
theorem vad_exactly_one_commit (n : Nat) (ns : List Nat) :
    vadRun ⟨false, false, 0⟩
        (VadEvent.speechStarted :: (List.replicate 10 (VadEvent.media 1000) ++
          [VadEvent.speechStopped, VadEvent.media n])) =
      (⟨false, false, 0⟩, List.replicate 12 false ++ [true]) ∧
    (vadRun ⟨false, false, 0⟩
        (VadEvent.speechStarted :: (List.replicate 10 (VadEvent.media 1000) ++
          (VadEvent.speechStopped :: VadEvent.media n :: ns.map VadEvent.media)))).2 =
      List.replicate 12 false ++ true :: List.replicate ns.length false := by
  have h10 : List.replicate 10 (VadEvent.media 1000) =
      [VadEvent.media 1000, VadEvent.media 1000, VadEvent.media 1000, VadEvent.media 1000,
       VadEvent.media 1000, VadEvent.media 1000, VadEvent.media 1000, VadEvent.media 1000,
       VadEvent.media 1000, VadEvent.media 1000] := rfl
  have h12 : (List.replicate 12 false : List Bool) =
      [false, false, false, false, false, false, false, false, false, false, false, false] := rfl
  have hle : (7200 : Nat) ≤ 10000 + n := by omega
  have hpre : vadRun ⟨false, false, 0⟩
      (VadEvent.speechStarted :: (List.replicate 10 (VadEvent.media 1000) ++
        [VadEvent.speechStopped, VadEvent.media n])) =
      (⟨false, false, 0⟩, List.replicate 12 false ++ [true]) := by
    rw [h10, h12]
    simp [vadRun, vadStep, hle]
  refine ⟨hpre, ?_⟩
  have hsplit : VadEvent.speechStarted :: (List.replicate 10 (VadEvent.media 1000) ++
      (VadEvent.speechStopped :: VadEvent.media n :: ns.map VadEvent.media)) =
      (VadEvent.speechStarted :: (List.replicate 10 (VadEvent.media 1000) ++
        [VadEvent.speechStopped, VadEvent.media n])) ++ ns.map VadEvent.media := by
    simp
  rw [hsplit, vadRun_append, hpre]
  simp [vadRun_idle_media]

lemma bytesToInt16LE_odd : ∀ (p : List Nat), p.length % 2 = 1 →
    bytesToInt16LE p = bytesToInt16LE p.dropLast
  | [], h => by simp at h
  | [_], _ => rfl
  | b0 :: b1 :: rest, h => by
    have hr : rest.length % 2 = 1 := by
      simp [List.length_cons] at h
      omega
    have hne : rest ≠ [] := by
      intro he
      rw [he] at hr
      simp at hr
    rw [List.dropLast_cons₂, List.dropLast_cons_of_ne_nil hne]
    simp only [bytesToInt16LE]
    rw [bytesToInt16LE_odd rest hr]

/-- C6, amended: an odd-length binary audio delta raises no error and is
not dropped; the trailing odd byte is silently ignored (the Int16Array
length argument truncates) and the remaining whole samples are transcoded
and enqueued exactly as for the payload without its last byte, the
session continuing unchanged. -/
theorem odd_payload_not_rejected (p : List Nat) (hp : p.length % 2 = 1)
    (st : OutboundState) :
    handleAudioDelta p st = handleAudioDelta p.dropLast st := by
  unfold handleAudioDelta
  rw [bytesToInt16LE_odd p hp]

/-- Witness for C6 at a concrete 3-byte payload. -/
theorem odd_payload_not_rejected_witness :
    ([0, 0, 0] : List Nat).length % 2 = 1 ∧
    handleAudioDelta [0, 0, 0] ⟨[], 0⟩ =
      handleAudioDelta ([0, 0, 0] : List Nat).dropLast ⟨[], 0⟩ :=
  ⟨by decide, odd_payload_not_rejected [0, 0, 0] (by decide) ⟨[], 0⟩⟩

/-- C6, counterexample: an odd-length 7-byte audio delta is not rejected:
its three whole little-endian samples are transcoded and one mu-law byte
is enqueued on the outbound queue, contradicting the claim that the unit
is dropped with nothing enqueued. -/
theorem odd_payload_enqueued :
    handleAudioDelta (List.replicate 7 0) ⟨[], 0⟩ = ⟨[[231]], 1⟩ ∧
    (handleAudioDelta (List.replicate 7 0) ⟨[], 0⟩).queue ≠ [] := by
  decide

/-- C1: for every sample sequence, downsampling by 3 the result of
upsampling by 3 (as composed in the speech-to-telephony direction) returns
exactly the original sequence element for element, and the upsampler
triples the length exactly. -/
theorem upsample_downsample_identity (s : List Int) :
    downsampleBy3 (resample8kTo24k s) = s ∧
    (resample8kTo24k s).length = 3 * s.length :=
  ⟨downsampleBy3_resample8kTo24k s, resample8kTo24k_length s⟩

lemma downsampleBy3_replicate (n : Nat) (v : Int) :
    downsampleBy3 (List.replicate (3 * n) v) = List.replicate n v := by
  induction n with
  | zero => rfl
  | succ k ih =>
    have h3 : 3 * (k + 1) = 3 * k + 1 + 1 + 1 := by ring
    rw [h3, List.replicate_succ, List.replicate_succ, List.replicate_succ]
    show v :: downsampleBy3 (List.replicate (3 * k) v) = _
    rw [ih, List.replicate_succ]

/-- C3: evaluation at the failing input of the claim. A 160-byte frame of
0xFF bytes, transcoded inbound and immediately back outbound, yields 160
bytes equal to 0x00, whose value under the decode table of this code is
-68, not 0: the decode table omits the standard complement of the input
byte, so 0xFF decodes to -15740 instead of 0 and the claimed all-zero
round trip fails on the code. -/
theorem silence_roundtrip_not_zero :
    convertPcm24kToMulaw (convertMulawToPcm24k (List.replicate 160 0xFF)) =
      List.replicate 160 0 ∧
    (convertPcm24kToMulaw (convertMulawToPcm24k (List.replicate 160 0xFF))).map decodeMuLaw =
      List.replicate 160 (-68) ∧
    ((-68 : Int) ≠ 0) := by
  have hdec : decodeMuLaw 0xFF = -15740 := by decide
  have henc : encodeMuLaw (-15740) = 0 := by decide
  have hdec0 : decodeMuLaw 0 = -68 := by decide
  have h1 : convertMulawToPcm24k (List.replicate 160 0xFF) =
      List.replicate 480 (-15740) := by
    rw [convertMulawToPcm24k, List.map_replicate, hdec, resample8kTo24k_replicate]
  have h2 : convertPcm24kToMulaw (List.replicate 480 (-15740)) = List.replicate 160 0 := by
    rw [convertPcm24kToMulaw, show (480 : Nat) = 3 * 160 from rfl, downsampleBy3_replicate,
      List.map_replicate, henc]
  refine ⟨by rw [h1, h2], ?_, by decide⟩
  rw [h1, h2, List.map_replicate, hdec0]

/-- C4: evaluation at the failing input of the claim. Re-encoding the
decoded value of byte 0xFF yields byte 0x00, which is 255 code steps from
0xFF: decode(0xFF) = -15740 and decode(0xFE) = -15228, so one quantization
step near 0xFF spans 512 PCM units, while decode(0x00) = -68 lies 15672
units away; the bounded-error claim fails because the decode table is not
the inverse of the encoder. -/
theorem mulaw_roundtrip_divergent :
    encodeMuLaw (decodeMuLaw 0xFF) = 0 ∧
    decodeMuLaw 0xFF = -15740 ∧ decodeMuLaw 0xFE = -15228 ∧ decodeMuLaw 0 = -68 := by
  decide

lemma emod256_toNat_lt (x : Int) : (x % 256).toNat < 256 := by omega

/-- C9: the codec is total: the decode table has 256 entries and the
masked lookup index is always in range, and for every int16 sample,
including -32768 where the derived exponent field overflows 3 bits, the
encoder produces a defined single byte below 256 via twos-complement
wraparound and never fails. -/
theorem codec_total :
    MULAW_DECODE_TABLE.length = 256 ∧
    (∀ b : Nat, b &&& 0xFF < MULAW_DECODE_TABLE.length) ∧
    (∀ s : Int, -32768 ≤ s → s ≤ 32767 → encodeMuLaw s < 256) := by
  refine ⟨by simp [MULAW_DECODE_TABLE], fun b => ?_, fun s h1 h2 => ?_⟩
  · have hle : b &&& 0xFF ≤ 0xFF := Nat.and_le_right
    have hlen : MULAW_DECODE_TABLE.length = 256 := by simp [MULAW_DECODE_TABLE]
    omega
  · simp only [encodeMuLaw]
    exact emod256_toNat_lt _

/-- Witness for C9 at the extreme sample -32768. -/
theorem codec_total_witness :
    (-32768 : Int) ≤ -32768 ∧ (-32768 : Int) ≤ 32767 ∧ encodeMuLaw (-32768) < 256 :=
  ⟨by decide, by decide, codec_total.2.2 (-32768) (by decide) (by decide)⟩

end WsMediaStream
